import Mathlib

/-!
Verification of the LLDP codec (package lldp): marshalling and unmarshalling
of IEEE 802.1AB Link Layer Discovery Protocol frames.

The development shallowly embeds the Go source:
* `tlv.go` — the `TLV` structure, `TLV.MarshalBinary`, `TLV.UnmarshalBinary`;
* `chassisid.go` / `portid.go` — the identifier payloads;
* `lldp.go` — `Frame.MarshalBinary` and `Frame.UnmarshalBinary`.

Bytes are modelled as natural numbers (machine bytes are `< 256`), byte
slices as `List Nat`, `time.Duration` as `Int` (a signed 64-bit count of
nanoseconds), and fallible Go methods as `Except`-valued functions.  The
mutation of the receiver performed by `Frame.UnmarshalBinary` is modelled by
explicit state passing: the function takes the receiver frame and returns
the updated frame together with an optional error.
-/

namespace LLDP

/-- The error values surfaced by the codec: `ErrInvalidTLV` (tlv.go),
`ErrInvalidFrame` (lldp.go) and `io.ErrUnexpectedEOF`. -/
inductive Err where
  | invalidTLV
  | invalidFrame
  | unexpectedEOF
deriving DecidableEq, Repr

/-- Constant `TLVTypeEnd` (tlv.go): sentinel type marking the end of a LLDPDU. -/
def TLVTypeEnd : Nat := 0

/-- Constant `TLVTypeChassisID` (tlv.go). -/
def TLVTypeChassisID : Nat := 1

/-- Constant `TLVTypePortID` (tlv.go). -/
def TLVTypePortID : Nat := 2

/-- Constant `TLVTypeTTL` (tlv.go). -/
def TLVTypeTTL : Nat := 3

/-- Constant `TLVTypeMax` (tlv.go): alias for `TLVTypeOrganizationSpecific = 127`. -/
def TLVTypeMax : Nat := 127

/-- Constant `TLVLengthMax = 0x01ff` (tlv.go): maximum length of TLV value data. -/
def TLVLengthMax : Nat := 511

/-- Constant `time.Second` expressed in nanoseconds, the unit of `time.Duration`. -/
def timeSecond : Int := 1000000000

/-- Constant `math.MaxUint16`. -/
def maxUint16 : Int := 65535

/-- A TLV (tlv.go).  The Go field `Type` (a `TLVType`, i.e. `uint8`) is
called `type` here because `Type` is reserved in Lean; `Length` is `uint16`
and `Value` a byte slice. -/
structure TLV where
  type : Nat
  Length : Nat
  Value : List Nat
deriving DecidableEq, Repr

/-- Function `binary.BigEndian.PutUint16`: the two big-endian bytes of a 16-bit
word. -/
def putUint16BE (v : Nat) : List Nat := [(v >>> 8) % 256, v % 256]

/-- Function `binary.BigEndian.Uint16` applied to the two bytes `b0`, `b1`. -/
def uint16BE (b0 b1 : Nat) : Nat := (b0 <<< 8) ||| b1

/-- Method `TLV.MarshalBinary` (tlv.go).  The checks and the 7-bit/9-bit packing
`tb = uint16(t.Type)<<9 | t.Length` mirror the source; since the checks
bound `type ≤ 127` and `Length ≤ 511`, the `uint16` arithmetic never
wraps and is modelled on `Nat`. -/
def TLV.marshalBinary (t : TLV) : Except Err (List Nat) :=
  if TLVTypeMax < t.type then .error .invalidTLV
  else if TLVLengthMax < t.Length then .error .invalidTLV
  else if t.Length ≠ t.Value.length then .error .invalidTLV
  else .ok (putUint16BE ((t.type <<< 9) ||| t.Length) ++ t.Value)

/-- Line `t.Type = TLVType(b[0]) >> 1` of `TLV.UnmarshalBinary` (tlv.go). -/
def headerType (b0 : Nat) : Nat := b0 >>> 1

/-- Line `t.Length = binary.BigEndian.Uint16(b[0:2]) & TLVLengthMax` of
`TLV.UnmarshalBinary` (tlv.go). -/
def headerLength (b0 b1 : Nat) : Nat := uint16BE b0 b1 &&& TLVLengthMax

/-- Method `TLV.UnmarshalBinary` (tlv.go): fewer than two bytes is
`io.ErrUnexpectedEOF`; otherwise the type and length are unpacked from the
first two bytes and the next `Length` bytes are copied as the value. -/
def TLV.unmarshalBinary (b : List Nat) : Except Err TLV :=
  match b with
  | b0 :: b1 :: rest =>
    let len := headerLength b0 b1
    if rest.length < len then .error .unexpectedEOF
    else .ok ⟨headerType b0, len, rest.take len⟩
  | _ => .error .unexpectedEOF

/-- A chassis identifier (chassisid.go): a subtype byte plus raw ID bytes. -/
structure ChassisID where
  Subtype : Nat
  ID : List Nat
deriving DecidableEq, Repr

/-- Method `ChassisID.MarshalBinary` (chassisid.go): subtype byte followed by the
ID bytes; the Go method never returns an error. -/
def ChassisID.marshalBinary (c : ChassisID) : List Nat := c.Subtype :: c.ID

/-- Method `ChassisID.UnmarshalBinary` (chassisid.go): an empty buffer is
`io.ErrUnexpectedEOF`; otherwise the first byte is the subtype and the rest
is copied as the ID. -/
def ChassisID.unmarshalBinary (b : List Nat) : Except Err ChassisID :=
  match b with
  | [] => .error .unexpectedEOF
  | s :: rest => .ok ⟨s, rest⟩

/-- A port identifier (portid.go), structurally identical to `ChassisID`. -/
structure PortID where
  Subtype : Nat
  ID : List Nat
deriving DecidableEq, Repr

/-- Method `PortID.MarshalBinary` (portid.go). -/
def PortID.marshalBinary (p : PortID) : List Nat := p.Subtype :: p.ID

/-- Method `PortID.UnmarshalBinary` (portid.go). -/
def PortID.unmarshalBinary (b : List Nat) : Except Err PortID :=
  match b with
  | [] => .error .unexpectedEOF
  | s :: rest => .ok ⟨s, rest⟩

/-- A LLDP frame (lldp.go).  The Go pointer fields `*ChassisID` and
`*PortID` are modelled as `Option`; `TTL` is a `time.Duration`, i.e. a
signed count of nanoseconds. -/
structure Frame where
  ChassisID : Option ChassisID
  PortID : Option PortID
  TTL : Int
  Optional : List TLV
deriving DecidableEq, Repr

/-- Method `Frame.MarshalBinary` (lldp.go).  The source writes the marshalled TLV
segments into a zero-initialised buffer of size `f.length()`; the segments
fill all but the final two bytes, which stay zero and form the
end-of-LLDPDU terminator TLV, so the buffer is modelled as the
concatenation of the segments followed by `[0, 0]`. -/
def Frame.marshalBinary (f : Frame) : Except Err (List Nat) :=
  match f.ChassisID with
  | none => .error .invalidFrame
  | some c =>
    match f.PortID with
    | none => .error .invalidFrame
    | some p =>
      let tTTL : Int := Int.tdiv f.TTL timeSecond
      if maxUint16 < tTTL then .error .invalidFrame
      else
        let ttl : Nat := (Int.emod tTTL 65536).toNat
        let cb := c.marshalBinary
        match (TLV.mk TLVTypeChassisID (cb.length % 65536) cb).marshalBinary with
        | .error e => .error e
        | .ok cbb =>
          let pb := p.marshalBinary
          match (TLV.mk TLVTypePortID (pb.length % 65536) pb).marshalBinary with
          | .error e => .error e
          | .ok pbb =>
            let tb := putUint16BE ttl
            match (TLV.mk TLVTypeTTL 2 tb).marshalBinary with
            | .error e => .error e
            | .ok tbb =>
              match f.Optional.mapM TLV.marshalBinary with
              | .error e => .error e
              | .ok obs => .ok (cbb ++ pbb ++ tbb ++ obs.flatten ++ [0, 0])

/-- Equality of `Except` values is decidable when both components are. -/
instance {ε α : Type} [DecidableEq ε] [DecidableEq α] : DecidableEq (Except ε α) := fun x y =>
  match x, y with
  | .ok a, .ok b =>
    if h : a = b then .isTrue (by rw [h]) else .isFalse (fun hh => h (Except.ok.inj hh))
  | .error a, .error b =>
    if h : a = b then .isTrue (by rw [h]) else .isFalse (fun hh => h (Except.error.inj hh))
  | .ok _, .error _ => .isFalse (fun hh => Except.noConfusion hh)
  | .error _, .ok _ => .isFalse (fun hh => Except.noConfusion hh)

/-- The body of the TLV-splitting loop at the top of `Frame.UnmarshalBinary`
(lldp.go): repeatedly unmarshal one TLV from the front of the remaining
buffer, advancing by `2 + t.Length`, until no bytes remain.  The recursion
is driven by an iteration bound so that it is structural and computes by
kernel reduction; every iteration consumes at least two bytes, so a bound
of the buffer length (used by `parseTLVs`) makes the out-of-fuel branch
unreachable, which `parseTLVsAux_congr` makes precise. -/
def parseTLVsAux : Nat → List Nat → Except Err (List TLV)
  | _, [] => .ok []
  | 0, _ :: _ => .error .unexpectedEOF
  | fuel + 1, b0 :: bs =>
    match TLV.unmarshalBinary (b0 :: bs) with
    | .error e => .error e
    | .ok t =>
      match parseTLVsAux fuel ((b0 :: bs).drop (2 + t.Length)) with
      | .error e => .error e
      | .ok ts => .ok (t :: ts)

/-- The TLV-splitting loop of `Frame.UnmarshalBinary` (lldp.go). -/
def parseTLVs (b : List Nat) : Except Err (List TLV) := parseTLVsAux b.length b

/-- Method `Frame.UnmarshalBinary` (lldp.go), with the receiver mutation made
explicit: the function takes the receiver frame and returns the (possibly
partly updated) frame together with an optional error.  On the error
paths of the identifier decodes the Go code has already stored a freshly
allocated zero identifier in the receiver, which is reproduced here. -/
def Frame.unmarshalBinary (f : Frame) (b : List Nat) : Frame × Option Err :=
  match parseTLVs b with
  | .error e => (f, some e)
  | .ok tt =>
    if tt.length < 4 then (f, some .unexpectedEOF)
    else if (tt.getD 0 ⟨0, 0, []⟩).type ≠ TLVTypeChassisID then (f, some .invalidFrame)
    else
      match ChassisID.unmarshalBinary (tt.getD 0 ⟨0, 0, []⟩).Value with
      | .error e => ({ f with ChassisID := some ⟨0, []⟩ }, some e)
      | .ok c =>
        let f1 := { f with ChassisID := some c }
        if (tt.getD 1 ⟨0, 0, []⟩).type ≠ TLVTypePortID then (f1, some .invalidFrame)
        else
          match PortID.unmarshalBinary (tt.getD 1 ⟨0, 0, []⟩).Value with
          | .error e => ({ f1 with PortID := some ⟨0, []⟩ }, some e)
          | .ok p =>
            let f2 := { f1 with PortID := some p }
            if (tt.getD 2 ⟨0, 0, []⟩).type ≠ TLVTypeTTL ∨ (tt.getD 2 ⟨0, 0, []⟩).Length ≠ 2 then
              (f2, some .invalidFrame)
            else
              let w := uint16BE ((tt.getD 2 ⟨0, 0, []⟩).Value.getD 0 0)
                ((tt.getD 2 ⟨0, 0, []⟩).Value.getD 1 0)
              let f3 := { f2 with TTL := Int.ofNat w * timeSecond }
              if (tt.getD (tt.length - 1) ⟨0, 0, []⟩).type ≠ TLVTypeEnd ∨
                  (tt.getD (tt.length - 1) ⟨0, 0, []⟩).Length ≠ 0 then
                (f3, some .invalidFrame)
              else
                ({ f3 with Optional := (tt.drop 3).dropLast }, none)

/-- Modelled from the spec (design notes): the reference formula
`kind = word >> 9` for extracting the TLV type from the 16-bit header
word. -/
def specHeaderKind (w : Nat) : Nat := w >>> 9

/-- Modelled from the spec (design notes): the reference formula
`length = word & 0x01FF` for extracting the TLV length from the 16-bit
header word. -/
def specHeaderLength (w : Nat) : Nat := w &&& 511

/-! ### Arithmetic helper lemmas -/

/-- Bitwise or of a left-shifted value with a value small enough to fit in
the shifted-away bits is plain addition. -/
lemma lor_shiftLeft_eq_add {b k : Nat} (a : Nat) (hb : b < 2 ^ k) :
    (a <<< k) ||| b = a * 2 ^ k + b := by
  apply Nat.eq_of_testBit_eq
  intro i
  rw [Nat.testBit_or, Nat.testBit_shiftLeft, Nat.mul_comm a (2 ^ k),
    Nat.testBit_mul_pow_two_add a hb i]
  by_cases h : i < k
  · simp [h, Nat.not_le.mpr h]
  · have hge := Nat.not_lt.mp h
    have hbf : b.testBit i = false :=
      Nat.testBit_lt_two_pow (lt_of_lt_of_le hb (Nat.pow_le_pow_right (by norm_num) hge))
    simp [h, hge, hbf]

/-- Specialisation of `lor_shiftLeft_eq_add` to the 9-bit length field. -/
lemma lor_shiftLeft9 (a b : Nat) (hb : b < 512) : (a <<< 9) ||| b = a * 512 + b := by
  have hb2 : b < 2 ^ 9 := by norm_num; exact hb
  have h := lor_shiftLeft_eq_add a hb2
  norm_num at h
  exact h

/-- Specialisation of `lor_shiftLeft_eq_add` to one byte. -/
lemma lor_shiftLeft8 (a b : Nat) (hb : b < 256) : (a <<< 8) ||| b = a * 256 + b := by
  have hb2 : b < 2 ^ 8 := by norm_num; exact hb
  have h := lor_shiftLeft_eq_add a hb2
  norm_num at h
  exact h

/-- Masking with the 9-bit mask `0x01ff` is reduction mod `512`. -/
lemma and511_eq_mod (n : Nat) : n &&& 511 = n % 512 := by
  have := Nat.and_pow_two_sub_one_eq_mod n 9
  norm_num at this
  exact this

/-! ### TLV marshalling lemmas -/

/-- Shape of a successful `TLV.marshalBinary`: the checks passed and the
output is the packed big-endian header word followed by the value. -/
lemma tlv_marshal_ok (t : TLV) {bs : List Nat} (h : t.marshalBinary = .ok bs) :
    t.type ≤ 127 ∧ t.Length ≤ 511 ∧ t.Length = t.Value.length ∧
    bs = putUint16BE (t.type * 512 + t.Length) ++ t.Value := by
  unfold TLV.marshalBinary TLVTypeMax TLVLengthMax at h
  by_cases h1 : 127 < t.type
  · rw [if_pos h1] at h
    exact Except.noConfusion h
  rw [if_neg h1] at h
  by_cases h2 : 511 < t.Length
  · rw [if_pos h2] at h
    exact Except.noConfusion h
  rw [if_neg h2] at h
  by_cases h3 : t.Length ≠ t.Value.length
  · rw [if_pos h3] at h
    exact Except.noConfusion h
  rw [if_neg h3] at h
  rw [Decidable.not_not] at h3
  refine ⟨by omega, by omega, h3, ?_⟩
  rw [lor_shiftLeft9 t.type t.Length (by omega)] at h
  exact (Except.ok.inj h).symm

/-- Method `TLV.marshalBinary` can only fail with `ErrInvalidTLV`. -/
lemma tlv_marshal_error (t : TLV) {e : Err} (h : t.marshalBinary = .error e) :
    e = .invalidTLV := by
  unfold TLV.marshalBinary at h
  by_cases h1 : TLVTypeMax < t.type
  · rw [if_pos h1] at h
    exact (Except.error.inj h).symm
  rw [if_neg h1] at h
  by_cases h2 : TLVLengthMax < t.Length
  · rw [if_pos h2] at h
    exact (Except.error.inj h).symm
  rw [if_neg h2] at h
  by_cases h3 : t.Length ≠ t.Value.length
  · rw [if_pos h3] at h
    exact (Except.error.inj h).symm
  rw [if_neg h3] at h
  exact Except.noConfusion h

/-- A mapped `TLV.marshalBinary` over a list can only fail with
`ErrInvalidTLV`. -/
lemma tlv_mapM_error (ts : List TLV) {e : Err}
    (h : ts.mapM TLV.marshalBinary = .error e) : e = .invalidTLV := by
  induction ts with
  | nil => exact Except.noConfusion h
  | cons t ts ih =>
    rw [List.mapM_cons] at h
    cases ht : t.marshalBinary with
    | error e2 =>
      rw [ht] at h
      simp only [Bind.bind, Except.bind] at h
      have he : e2 = e := Except.error.inj h
      subst he
      exact tlv_marshal_error t ht
    | ok seg =>
      rw [ht] at h
      simp only [Bind.bind, Except.bind] at h
      cases hts : ts.mapM TLV.marshalBinary with
      | error e3 =>
        rw [hts] at h
        simp only [Bind.bind, Except.bind] at h
        have he : e3 = e := Except.error.inj h
        subst he
        exact ih hts
      | ok bss =>
        rw [hts] at h
        exact Except.noConfusion h

/-- Unmarshalling two bytes and a tail: the unfolded first branch of
`TLV.unmarshalBinary`. -/
lemma tlv_unmarshal_cons (b0 b1 : Nat) (rest : List Nat) :
    TLV.unmarshalBinary (b0 :: b1 :: rest) =
      if rest.length < headerLength b0 b1 then Except.error Err.unexpectedEOF
      else Except.ok ⟨headerType b0, headerLength b0 b1, rest.take (headerLength b0 b1)⟩ := rfl

/-- Unmarshalling the output of a successful `TLV.marshalBinary`, with any
suffix appended, recovers exactly the original TLV, and the parser advances
`2 + Length` steps exactly over the marshalled segment. -/
lemma tlv_unmarshal_marshal (t : TLV) {seg : List Nat} (h : t.marshalBinary = .ok seg)
    (rest : List Nat) :
    TLV.unmarshalBinary (seg ++ rest) = .ok t ∧
    (seg ++ rest).drop (2 + t.Length) = rest ∧ seg.length = 2 + t.Length := by
  obtain ⟨h1, h2, h3, rfl⟩ := tlv_marshal_ok t h
  have hw : t.type * 512 + t.Length < 65536 := by omega
  have hb0 : (t.type * 512 + t.Length) >>> 8 = (t.type * 512 + t.Length) / 256 := by
    rw [Nat.shiftRight_eq_div_pow]
  have hb0lt : (t.type * 512 + t.Length) / 256 < 256 := by omega
  have hmod0 : ((t.type * 512 + t.Length) >>> 8) % 256 = (t.type * 512 + t.Length) / 256 := by
    rw [hb0]
    exact Nat.mod_eq_of_lt hb0lt
  have hlen : headerLength (((t.type * 512 + t.Length) >>> 8) % 256)
      ((t.type * 512 + t.Length) % 256) = t.Length := by
    unfold headerLength uint16BE TLVLengthMax
    rw [hmod0, lor_shiftLeft8 _ _ (Nat.mod_lt _ (by norm_num)), and511_eq_mod]
    omega
  have hty : headerType (((t.type * 512 + t.Length) >>> 8) % 256) = t.type := by
    unfold headerType
    rw [hmod0, Nat.shiftRight_eq_div_pow, pow_one]
    omega
  have hE : (putUint16BE (t.type * 512 + t.Length) ++ t.Value) ++ rest =
      ((t.type * 512 + t.Length) >>> 8) % 256 :: (t.type * 512 + t.Length) % 256 ::
        (t.Value ++ rest) := by
    simp [putUint16BE]
  refine ⟨?_, ?_, ?_⟩
  · rw [hE, tlv_unmarshal_cons, hlen, hty]
    have hcond : ¬ ((t.Value ++ rest).length < t.Length) := by
      simp only [List.length_append]
      omega
    rw [if_neg hcond]
    have htake : (t.Value ++ rest).take t.Length = t.Value := by
      rw [h3]
      exact List.take_left t.Value rest
    rw [htake]
  · rw [hE]
    have h2L : 2 + t.Length = t.Length + 1 + 1 := by omega
    rw [h2L, List.drop_succ_cons, List.drop_succ_cons, h3, List.drop_left]
  · simp only [List.length_append, putUint16BE, List.length_cons, List.length_nil]
    omega

/-! ### Parse-loop lemmas -/

/-- Unfolding `parseTLVsAux` at a positive iteration bound on a non-empty
buffer. -/
lemma parseTLVsAux_cons (fuel b0 : Nat) (bs : List Nat) :
    parseTLVsAux (fuel + 1) (b0 :: bs) =
      match TLV.unmarshalBinary (b0 :: bs) with
      | Except.error e => Except.error e
      | Except.ok t =>
        match parseTLVsAux fuel ((b0 :: bs).drop (2 + t.Length)) with
        | Except.error e => Except.error e
        | Except.ok ts => Except.ok (t :: ts) := rfl

/-- One successful step of the parse loop, written with `Except.map`. -/
lemma parseTLVsAux_step {b : List Nat} {t : TLV} (fuel : Nat)
    (hne : b ≠ []) (hU : TLV.unmarshalBinary b = .ok t) :
    parseTLVsAux (fuel + 1) b =
      Except.map (fun ts => t :: ts) (parseTLVsAux fuel (b.drop (2 + t.Length))) := by
  obtain ⟨b0, bs, rfl⟩ := List.exists_cons_of_ne_nil hne
  rw [parseTLVsAux_cons, hU]
  show (match parseTLVsAux fuel ((b0 :: bs).drop (2 + t.Length)) with
    | Except.error e => (Except.error e : Except Err (List TLV))
    | Except.ok ts => Except.ok (t :: ts)) =
    Except.map (fun ts => t :: ts) (parseTLVsAux fuel ((b0 :: bs).drop (2 + t.Length)))
  cases parseTLVsAux fuel ((b0 :: bs).drop (2 + t.Length)) <;> rfl

/-- The iteration bound of `parseTLVsAux` is irrelevant as long as it is at
least the buffer length. -/
lemma parseTLVsAux_congr (f1 : Nat) : ∀ (f2 : Nat) (b : List Nat),
    b.length ≤ f1 → b.length ≤ f2 → parseTLVsAux f1 b = parseTLVsAux f2 b := by
  induction f1 with
  | zero =>
    intro f2 b h1 h2
    cases b with
    | nil => cases f2 <;> rfl
    | cons b0 bs => simp at h1
  | succ f ih =>
    intro f2 b h1 h2
    cases b with
    | nil => cases f2 <;> rfl
    | cons b0 bs =>
      cases f2 with
      | zero => simp at h2
      | succ f2c =>
        cases hU : TLV.unmarshalBinary (b0 :: bs) with
        | error e => rw [parseTLVsAux_cons, parseTLVsAux_cons, hU]
        | ok t =>
          have hd : ((b0 :: bs).drop (2 + t.Length)).length ≤ f := by
            simp only [List.length_drop, List.length_cons]
            simp only [List.length_cons] at h1
            omega
          have hd2 : ((b0 :: bs).drop (2 + t.Length)).length ≤ f2c := by
            simp only [List.length_drop, List.length_cons]
            simp only [List.length_cons] at h2
            omega
          rw [parseTLVsAux_step f (List.cons_ne_nil b0 bs) hU,
            parseTLVsAux_step f2c (List.cons_ne_nil b0 bs) hU, ih f2c _ hd hd2]

/-- Parsing a marshalled TLV segment followed by any suffix yields that TLV
consed onto the parse of the suffix. -/
lemma parseTLVs_seg (t : TLV) {seg : List Nat} (h : t.marshalBinary = .ok seg)
    (rest : List Nat) :
    parseTLVs (seg ++ rest) = Except.map (fun ts => t :: ts) (parseTLVs rest) := by
  obtain ⟨hU, hdrop, hseglen⟩ := tlv_unmarshal_marshal t h rest
  have hne : seg ++ rest ≠ [] := by
    intro hnil
    have hl := congrArg List.length hnil
    simp only [List.length_append, List.length_nil] at hl
    omega
  unfold parseTLVs
  have hlenE : (seg ++ rest).length = (seg.length - 1 + rest.length) + 1 := by
    simp only [List.length_append]
    omega
  rw [hlenE, parseTLVsAux_step (seg.length - 1 + rest.length) hne hU, hdrop,
    parseTLVsAux_congr (seg.length - 1 + rest.length) rest.length rest (by omega) le_rfl]

/-- Parsing the flattened outputs of a successful mapped marshal, followed
by any suffix, yields the original TLVs prepended to the parse of the
suffix. -/
lemma parseTLVs_flatten (ts : List TLV) : ∀ {bss : List (List Nat)},
    ts.mapM TLV.marshalBinary = .ok bss → ∀ (rest : List Nat),
    parseTLVs (bss.flatten ++ rest) = Except.map (fun r => ts ++ r) (parseTLVs rest) := by
  induction ts with
  | nil =>
    intro bss h rest
    simp only [List.mapM_nil, pure, Except.pure] at h
    cases h
    simp only [List.flatten_nil, List.nil_append]
    cases parseTLVs rest <;> rfl
  | cons t ts ih =>
    intro bss h rest
    rw [List.mapM_cons] at h
    cases ht : t.marshalBinary with
    | error e =>
      rw [ht] at h
      simp [Bind.bind, Except.bind] at h
    | ok seg =>
      rw [ht] at h
      simp only [Bind.bind, Except.bind] at h
      cases hts : ts.mapM TLV.marshalBinary with
      | error e =>
        rw [hts] at h
        simp [pure, Except.pure] at h
      | ok bss2 =>
        rw [hts] at h
        simp only [pure, Except.pure] at h
        cases h
        show parseTLVs ((seg :: bss2).flatten ++ rest) = _
        rw [List.flatten_cons, List.append_assoc]
        rw [parseTLVs_seg t ht, ih hts rest]
        cases parseTLVs rest <;> rfl

/-! ### Frame marshalling lemmas -/

/-- Unfolding of `Frame.marshalBinary` when both identifiers are present,
with the local bindings of the source inlined. -/
lemma frame_marshal_eq (c : ChassisID) (p : PortID) (T : Int) (opt : List TLV) :
    Frame.marshalBinary ⟨some c, some p, T, opt⟩ =
      (if maxUint16 < Int.tdiv T timeSecond then Except.error Err.invalidFrame
      else
        match (TLV.mk TLVTypeChassisID (c.marshalBinary.length % 65536)
            c.marshalBinary).marshalBinary with
        | Except.error e => Except.error e
        | Except.ok cbb =>
          match (TLV.mk TLVTypePortID (p.marshalBinary.length % 65536)
              p.marshalBinary).marshalBinary with
          | Except.error e => Except.error e
          | Except.ok pbb =>
            match (TLV.mk TLVTypeTTL 2
                (putUint16BE (Int.toNat (Int.emod (Int.tdiv T timeSecond)
                  65536)))).marshalBinary with
            | Except.error e => Except.error e
            | Except.ok tbb =>
              match opt.mapM TLV.marshalBinary with
              | Except.error e => Except.error e
              | Except.ok obs =>
                Except.ok (cbb ++ pbb ++ tbb ++ obs.flatten ++ [0, 0])) := rfl

/-- Decomposition of a successful `Frame.marshalBinary`: the TTL range
check passed, all four TLV marshals succeeded, and the output is their
concatenation followed by the terminator bytes. -/
lemma frame_marshal_parts {c : ChassisID} {p : PortID} {T : Int} {opt : List TLV}
    {bs : List Nat}
    (hbs : Frame.marshalBinary ⟨some c, some p, T, opt⟩ = .ok bs) :
    ¬ (maxUint16 < Int.tdiv T timeSecond) ∧
    ∃ cbb pbb tbb obs,
      (TLV.mk TLVTypeChassisID (c.marshalBinary.length % 65536) c.marshalBinary).marshalBinary
        = .ok cbb ∧
      (TLV.mk TLVTypePortID (p.marshalBinary.length % 65536) p.marshalBinary).marshalBinary
        = .ok pbb ∧
      (TLV.mk TLVTypeTTL 2
        (putUint16BE (Int.toNat (Int.emod (Int.tdiv T timeSecond) 65536)))).marshalBinary
        = .ok tbb ∧
      opt.mapM TLV.marshalBinary = .ok obs ∧
      bs = cbb ++ pbb ++ tbb ++ obs.flatten ++ [0, 0] := by
  rw [frame_marshal_eq] at hbs
  by_cases hT : maxUint16 < Int.tdiv T timeSecond
  · rw [if_pos hT] at hbs
    exact Except.noConfusion hbs
  rw [if_neg hT] at hbs
  refine ⟨hT, ?_⟩
  cases hcb : (TLV.mk TLVTypeChassisID (c.marshalBinary.length % 65536)
      c.marshalBinary).marshalBinary with
  | error e =>
    rw [hcb] at hbs
    exact Except.noConfusion hbs
  | ok cbb =>
    rw [hcb] at hbs
    cases hpb : (TLV.mk TLVTypePortID (p.marshalBinary.length % 65536)
        p.marshalBinary).marshalBinary with
    | error e =>
      rw [hpb] at hbs
      exact Except.noConfusion hbs
    | ok pbb =>
      rw [hpb] at hbs
      cases htb : (TLV.mk TLVTypeTTL 2
          (putUint16BE (Int.toNat (Int.emod (Int.tdiv T timeSecond) 65536)))).marshalBinary with
      | error e =>
        rw [htb] at hbs
        exact Except.noConfusion hbs
      | ok tbb =>
        rw [htb] at hbs
        cases hob : opt.mapM TLV.marshalBinary with
        | error e =>
          rw [hob] at hbs
          exact Except.noConfusion hbs
        | ok obs =>
          rw [hob] at hbs
          have hEq : cbb ++ pbb ++ tbb ++ obs.flatten ++ [0, 0] = bs := Except.ok.inj hbs
          exact ⟨cbb, pbb, tbb, obs, rfl, rfl, rfl, rfl, hEq.symm⟩

/-! ### Frame unmarshalling branch lemmas -/

/-- Method `Frame.UnmarshalBinary` when the TLV loop itself fails. -/
lemma frame_unmarshal_parse_error (f0 : Frame) (b : List Nat) (e : Err)
    (hparse : parseTLVs b = .error e) :
    Frame.unmarshalBinary f0 b = (f0, some e) := by
  simp only [Frame.unmarshalBinary, hparse]

/-- Method `Frame.UnmarshalBinary` with fewer than four parsed TLVs. -/
lemma frame_unmarshal_short (f0 : Frame) (b : List Nat) (tt : List TLV)
    (hparse : parseTLVs b = .ok tt) (hlen : tt.length < 4) :
    Frame.unmarshalBinary f0 b = (f0, some .unexpectedEOF) := by
  simp only [Frame.unmarshalBinary, hparse]
  rw [if_pos hlen]

/-- Method `Frame.UnmarshalBinary` when the first TLV is not a chassis ID TLV. -/
lemma frame_unmarshal_bad_chassis_type (f0 : Frame) (b : List Nat) (tt : List TLV)
    (hparse : parseTLVs b = .ok tt) (hlen : ¬ (tt.length < 4))
    (h0 : (tt.getD 0 ⟨0, 0, []⟩).type ≠ TLVTypeChassisID) :
    Frame.unmarshalBinary f0 b = (f0, some .invalidFrame) := by
  simp only [Frame.unmarshalBinary, hparse]
  rw [if_neg hlen, if_pos h0]

/-- Method `Frame.UnmarshalBinary` when the first TLV has the chassis ID type but
an empty value: the chassis identifier decode fails with
`io.ErrUnexpectedEOF` before any later positional check runs, and the
receiver keeps the freshly allocated zero chassis identifier. -/
lemma frame_unmarshal_chassis_eof (f0 : Frame) (b : List Nat) (tt : List TLV)
    (hparse : parseTLVs b = .ok tt) (hlen : ¬ (tt.length < 4))
    (h0 : (tt.getD 0 ⟨0, 0, []⟩).type = TLVTypeChassisID)
    (h0v : (tt.getD 0 ⟨0, 0, []⟩).Value = []) :
    Frame.unmarshalBinary f0 b =
      ({ f0 with ChassisID := some ⟨0, []⟩ }, some .unexpectedEOF) := by
  simp only [Frame.unmarshalBinary, hparse]
  rw [if_neg hlen, if_neg (show ¬ ((tt.getD 0 ⟨0, 0, []⟩).type ≠ TLVTypeChassisID) from
    fun hne => hne h0)]
  rw [h0v]
  simp only [ChassisID.unmarshalBinary]

/-- Method `Frame.UnmarshalBinary` when the second TLV is not a port ID TLV: the
chassis identifier has already been stored when `ErrInvalidFrame` is
returned. -/
lemma frame_unmarshal_bad_port_type (f0 : Frame) (b : List Nat) (tt : List TLV)
    (c : ChassisID)
    (hparse : parseTLVs b = .ok tt) (hlen : ¬ (tt.length < 4))
    (h0 : (tt.getD 0 ⟨0, 0, []⟩).type = TLVTypeChassisID)
    (hc : ChassisID.unmarshalBinary (tt.getD 0 ⟨0, 0, []⟩).Value = .ok c)
    (h1 : (tt.getD 1 ⟨0, 0, []⟩).type ≠ TLVTypePortID) :
    Frame.unmarshalBinary f0 b =
      ({ f0 with ChassisID := some c }, some .invalidFrame) := by
  simp only [Frame.unmarshalBinary, hparse]
  rw [if_neg hlen, if_neg (show ¬ ((tt.getD 0 ⟨0, 0, []⟩).type ≠ TLVTypeChassisID) from
    fun hne => hne h0)]
  rw [hc]
  simp only []
  rw [if_pos h1]

/-- Method `Frame.UnmarshalBinary` when the second TLV has the port ID type but an
empty value: the port identifier decode fails with `io.ErrUnexpectedEOF`. -/
lemma frame_unmarshal_port_eof (f0 : Frame) (b : List Nat) (tt : List TLV)
    (c : ChassisID)
    (hparse : parseTLVs b = .ok tt) (hlen : ¬ (tt.length < 4))
    (h0 : (tt.getD 0 ⟨0, 0, []⟩).type = TLVTypeChassisID)
    (hc : ChassisID.unmarshalBinary (tt.getD 0 ⟨0, 0, []⟩).Value = .ok c)
    (h1 : (tt.getD 1 ⟨0, 0, []⟩).type = TLVTypePortID)
    (h1v : (tt.getD 1 ⟨0, 0, []⟩).Value = []) :
    Frame.unmarshalBinary f0 b =
      ({ f0 with ChassisID := some c, PortID := some ⟨0, []⟩ }, some .unexpectedEOF) := by
  simp only [Frame.unmarshalBinary, hparse]
  rw [if_neg hlen, if_neg (show ¬ ((tt.getD 0 ⟨0, 0, []⟩).type ≠ TLVTypeChassisID) from
    fun hne => hne h0)]
  rw [hc]
  simp only []
  rw [if_neg (show ¬ ((tt.getD 1 ⟨0, 0, []⟩).type ≠ TLVTypePortID) from
    fun hne => hne h1)]
  rw [h1v]
  simp only [PortID.unmarshalBinary]

/-- Method `Frame.UnmarshalBinary` when the third TLV is not a TTL TLV of length
two. -/
lemma frame_unmarshal_bad_ttl (f0 : Frame) (b : List Nat) (tt : List TLV)
    (c : ChassisID) (p : PortID)
    (hparse : parseTLVs b = .ok tt) (hlen : ¬ (tt.length < 4))
    (h0 : (tt.getD 0 ⟨0, 0, []⟩).type = TLVTypeChassisID)
    (hc : ChassisID.unmarshalBinary (tt.getD 0 ⟨0, 0, []⟩).Value = .ok c)
    (h1 : (tt.getD 1 ⟨0, 0, []⟩).type = TLVTypePortID)
    (hp : PortID.unmarshalBinary (tt.getD 1 ⟨0, 0, []⟩).Value = .ok p)
    (h2 : (tt.getD 2 ⟨0, 0, []⟩).type ≠ TLVTypeTTL ∨ (tt.getD 2 ⟨0, 0, []⟩).Length ≠ 2) :
    Frame.unmarshalBinary f0 b =
      ({ f0 with ChassisID := some c, PortID := some p }, some .invalidFrame) := by
  simp only [Frame.unmarshalBinary, hparse]
  rw [if_neg hlen, if_neg (show ¬ ((tt.getD 0 ⟨0, 0, []⟩).type ≠ TLVTypeChassisID) from
    fun hne => hne h0)]
  rw [hc]
  simp only []
  rw [if_neg (show ¬ ((tt.getD 1 ⟨0, 0, []⟩).type ≠ TLVTypePortID) from
    fun hne => hne h1)]
  rw [hp]
  simp only []
  rw [if_pos h2]

/-- Method `Frame.UnmarshalBinary` when the final TLV is not an end-of-LLDPDU TLV
of length zero: the TTL has already been stored when `ErrInvalidFrame` is
returned. -/
lemma frame_unmarshal_bad_end (f0 : Frame) (b : List Nat) (tt : List TLV)
    (c : ChassisID) (p : PortID)
    (hparse : parseTLVs b = .ok tt) (hlen : ¬ (tt.length < 4))
    (h0 : (tt.getD 0 ⟨0, 0, []⟩).type = TLVTypeChassisID)
    (hc : ChassisID.unmarshalBinary (tt.getD 0 ⟨0, 0, []⟩).Value = .ok c)
    (h1 : (tt.getD 1 ⟨0, 0, []⟩).type = TLVTypePortID)
    (hp : PortID.unmarshalBinary (tt.getD 1 ⟨0, 0, []⟩).Value = .ok p)
    (h2a : (tt.getD 2 ⟨0, 0, []⟩).type = TLVTypeTTL)
    (h2b : (tt.getD 2 ⟨0, 0, []⟩).Length = 2)
    (h3 : (tt.getD (tt.length - 1) ⟨0, 0, []⟩).type ≠ TLVTypeEnd ∨
      (tt.getD (tt.length - 1) ⟨0, 0, []⟩).Length ≠ 0) :
    Frame.unmarshalBinary f0 b =
      (Frame.mk (some c) (some p)
        (Int.ofNat (uint16BE ((tt.getD 2 ⟨0, 0, []⟩).Value.getD 0 0)
          ((tt.getD 2 ⟨0, 0, []⟩).Value.getD 1 0)) * timeSecond)
        f0.Optional, some .invalidFrame) := by
  simp only [Frame.unmarshalBinary, hparse]
  rw [if_neg hlen, if_neg (show ¬ ((tt.getD 0 ⟨0, 0, []⟩).type ≠ TLVTypeChassisID) from
    fun hne => hne h0)]
  rw [hc]
  simp only []
  rw [if_neg (show ¬ ((tt.getD 1 ⟨0, 0, []⟩).type ≠ TLVTypePortID) from
    fun hne => hne h1)]
  rw [hp]
  simp only []
  rw [if_neg (show ¬ ((tt.getD 2 ⟨0, 0, []⟩).type ≠ TLVTypeTTL ∨
    (tt.getD 2 ⟨0, 0, []⟩).Length ≠ 2) from
    fun hor => hor.elim (fun h4 => h4 h2a) (fun h4 => h4 h2b))]
  rw [if_pos h3]

/-- Method `Frame.UnmarshalBinary` on a well-formed TLV sequence: every positional
check passes and the decoded fields are stored. -/
lemma frame_unmarshal_ok (f0 : Frame) (b : List Nat) (tt : List TLV)
    (c : ChassisID) (p : PortID)
    (hparse : parseTLVs b = .ok tt)
    (hlen : ¬ (tt.length < 4))
    (h0 : (tt.getD 0 ⟨0, 0, []⟩).type = TLVTypeChassisID)
    (hc : ChassisID.unmarshalBinary (tt.getD 0 ⟨0, 0, []⟩).Value = .ok c)
    (h1 : (tt.getD 1 ⟨0, 0, []⟩).type = TLVTypePortID)
    (hp : PortID.unmarshalBinary (tt.getD 1 ⟨0, 0, []⟩).Value = .ok p)
    (h2a : (tt.getD 2 ⟨0, 0, []⟩).type = TLVTypeTTL)
    (h2b : (tt.getD 2 ⟨0, 0, []⟩).Length = 2)
    (h3a : (tt.getD (tt.length - 1) ⟨0, 0, []⟩).type = TLVTypeEnd)
    (h3b : (tt.getD (tt.length - 1) ⟨0, 0, []⟩).Length = 0) :
    Frame.unmarshalBinary f0 b =
      (Frame.mk (some c) (some p)
        (Int.ofNat (uint16BE ((tt.getD 2 ⟨0, 0, []⟩).Value.getD 0 0)
          ((tt.getD 2 ⟨0, 0, []⟩).Value.getD 1 0)) * timeSecond)
        ((tt.drop 3).dropLast), none) := by
  simp only [Frame.unmarshalBinary, hparse]
  rw [if_neg hlen]
  rw [if_neg (show ¬ ((tt.getD 0 ⟨0, 0, []⟩).type ≠ TLVTypeChassisID) from
    fun hne => hne h0)]
  rw [hc]
  simp only []
  rw [if_neg (show ¬ ((tt.getD 1 ⟨0, 0, []⟩).type ≠ TLVTypePortID) from
    fun hne => hne h1)]
  rw [hp]
  simp only []
  rw [if_neg (show ¬ ((tt.getD 2 ⟨0, 0, []⟩).type ≠ TLVTypeTTL ∨
    (tt.getD 2 ⟨0, 0, []⟩).Length ≠ 2) from
    fun hor => hor.elim (fun h4 => h4 h2a) (fun h4 => h4 h2b))]
  rw [if_neg (show ¬ ((tt.getD (tt.length - 1) ⟨0, 0, []⟩).type ≠ TLVTypeEnd ∨
    (tt.getD (tt.length - 1) ⟨0, 0, []⟩).Length ≠ 0) from
    fun hor => hor.elim (fun h4 => h4 h3a) (fun h4 => h4 h3b))]

/-! ### Claim theorems -/

/-- C2: `TLV.MarshalBinary` fails with `ErrInvalidTLV` exactly when
`Type > 127`, or `Length > 511`, or `Length` differs from the byte length
of `Value`; it can fail with no other error; otherwise it succeeds and
produces exactly `2 + Length` bytes: the big-endian bytes of a 16-bit word
whose top 7 bits are `Type` and whose low 9 bits are `Length`, followed by
`Value` unchanged. -/
theorem tlv_marshal_spec (t : TLV) :
    (t.marshalBinary = .error .invalidTLV ↔
      TLVTypeMax < t.type ∨ TLVLengthMax < t.Length ∨ t.Length ≠ t.Value.length) ∧
    (∀ e, t.marshalBinary = .error e → e = .invalidTLV) ∧
    (∀ bs, t.marshalBinary = .ok bs →
      bs.length = 2 + t.Length ∧
      bs = putUint16BE ((t.type <<< 9) ||| t.Length) ++ t.Value ∧
      ((t.type <<< 9) ||| t.Length) >>> 9 = t.type ∧
      ((t.type <<< 9) ||| t.Length) &&& 511 = t.Length) := by
  refine ⟨⟨?_, ?_⟩, fun e => tlv_marshal_error t, ?_⟩
  · intro h
    by_contra hcon
    push_neg at hcon
    obtain ⟨h1, h2, h3⟩ := hcon
    unfold TLV.marshalBinary at h
    rw [if_neg (Nat.not_lt.mpr h1), if_neg (Nat.not_lt.mpr h2),
      if_neg (show ¬ (t.Length ≠ t.Value.length) from fun hne => hne h3)] at h
    exact Except.noConfusion h
  · intro hor
    unfold TLV.marshalBinary
    by_cases h1 : TLVTypeMax < t.type
    · rw [if_pos h1]
    rw [if_neg h1]
    by_cases h2 : TLVLengthMax < t.Length
    · rw [if_pos h2]
    rw [if_neg h2]
    have h3 : t.Length ≠ t.Value.length := by
      rcases hor with h | h | h
      · exact absurd h h1
      · exact absurd h h2
      · exact h
    rw [if_pos h3]
  · intro bs h
    obtain ⟨h1, h2, h3, rfl⟩ := tlv_marshal_ok t h
    have hlor : (t.type <<< 9) ||| t.Length = t.type * 512 + t.Length :=
      lor_shiftLeft9 t.type t.Length (by omega)
    refine ⟨?_, ?_, ?_, ?_⟩
    · simp only [List.length_append, putUint16BE, List.length_cons, List.length_nil]
      omega
    · rw [hlor]
    · rw [hlor, Nat.shiftRight_eq_div_pow]
      norm_num
      omega
    · rw [hlor, and511_eq_mod]
      omega

/-- Witness for C2 at a concrete out-of-range type. -/
theorem tlv_marshal_spec_witness :
    (TLV.mk 128 0 []).marshalBinary = Except.error Err.invalidTLV :=
  ((tlv_marshal_spec ⟨128, 0, []⟩).1).mpr (Or.inl (by decide))

/-- C3: `TLV.UnmarshalBinary` fails with `io.ErrUnexpectedEOF` exactly when
fewer than 2 bytes are available or fewer than the parsed length bytes
remain after the first two; otherwise it succeeds with `Type` the high 7
bits and `Length` the low 9 bits of the big-endian word formed by the
first two bytes, and `Value` a copy of the next `Length` bytes — it never
fails because of the `Type` or `Length` values themselves. -/
theorem tlv_unmarshal_spec (b : List Nat) :
    (b.length < 2 → TLV.unmarshalBinary b = .error .unexpectedEOF) ∧
    (∀ b0 b1 rest, b = b0 :: b1 :: rest → b0 < 256 → b1 < 256 →
      (rest.length < (b0 * 256 + b1) &&& 511 →
        TLV.unmarshalBinary b = .error .unexpectedEOF) ∧
      ((b0 * 256 + b1) &&& 511 ≤ rest.length →
        TLV.unmarshalBinary b =
          .ok ⟨(b0 * 256 + b1) >>> 9, (b0 * 256 + b1) &&& 511,
            rest.take ((b0 * 256 + b1) &&& 511)⟩)) := by
  constructor
  · intro hshort
    match b, hshort with
    | [], _ => rfl
    | [b0], _ => rfl
    | b0 :: b1 :: rest, hshort =>
      simp only [List.length_cons] at hshort
      omega
  · intro b0 b1 rest hb h0 h1
    subst hb
    have hL : headerLength b0 b1 = (b0 * 256 + b1) &&& 511 := by
      unfold headerLength uint16BE TLVLengthMax
      rw [lor_shiftLeft8 b0 b1 h1]
    have hT : headerType b0 = (b0 * 256 + b1) >>> 9 := by
      unfold headerType
      rw [Nat.shiftRight_eq_div_pow, Nat.shiftRight_eq_div_pow]
      norm_num
      omega
    constructor
    · intro hlt
      rw [tlv_unmarshal_cons, if_pos (by rw [hL]; exact hlt)]
    · intro hge
      rw [tlv_unmarshal_cons, if_neg (by rw [hL]; omega), hL, hT]

/-- Witness for C3 at a concrete two-byte header with a one-byte value. -/
theorem tlv_unmarshal_spec_witness :
    TLV.unmarshalBinary [2, 1, 5] =
      .ok ⟨(2 * 256 + 1) >>> 9, (2 * 256 + 1) &&& 511,
        [5].take ((2 * 256 + 1) &&& 511)⟩ :=
  ((tlv_unmarshal_spec [2, 1, 5]).2 2 1 [5] rfl (by decide) (by decide)).2 (by decide)

/-- C8: the implementation's header extraction (first byte shifted right by
one for the type; 16-bit big-endian word masked with `0x01FF` for the
length) agrees with the reference formulas `kind = word >> 9` and
`length = word & 0x01FF` on the big-endian word of any two bytes. -/
theorem header_extraction_equiv (b0 b1 : Nat) (h0 : b0 < 256) (h1 : b1 < 256) :
    headerType b0 = specHeaderKind (b0 * 256 + b1) ∧
    headerLength b0 b1 = specHeaderLength (b0 * 256 + b1) := by
  constructor
  · unfold headerType specHeaderKind
    rw [Nat.shiftRight_eq_div_pow, Nat.shiftRight_eq_div_pow]
    norm_num
    omega
  · unfold headerLength specHeaderLength uint16BE TLVLengthMax
    rw [lor_shiftLeft8 b0 b1 h1]

/-- Witness for C8 at a concrete header. -/
theorem header_extraction_equiv_witness :
    headerType 6 = specHeaderKind (6 * 256 + 2) ∧
    headerLength 6 2 = specHeaderLength (6 * 256 + 2) :=
  header_extraction_equiv 6 2 (by decide) (by decide)

/-- C5: for every TLV with `Type ≤ 127`, `Length ≤ 511` and `Length` equal
to the byte length of `Value`, unmarshalling the output of marshalling
yields the same TLV back. -/
theorem tlv_roundtrip (t : TLV) (h1 : t.type ≤ 127) (h2 : t.Length ≤ 511)
    (h3 : t.Length = t.Value.length) :
    t.marshalBinary.bind TLV.unmarshalBinary = .ok t := by
  have hok : t.marshalBinary = .ok (putUint16BE (t.type * 512 + t.Length) ++ t.Value) := by
    unfold TLV.marshalBinary TLVTypeMax TLVLengthMax
    rw [if_neg (by omega), if_neg (by omega), if_neg (show ¬ (t.Length ≠ t.Value.length) from
      fun hne => hne h3), lor_shiftLeft9 t.type t.Length (by omega)]
  have h4 := (tlv_unmarshal_marshal t hok []).1
  rw [List.append_nil] at h4
  rw [hok]
  exact h4

/-- Witness for C5 at a concrete TLV. -/
theorem tlv_roundtrip_witness :
    (TLV.mk 8 3 [10, 11, 12]).marshalBinary.bind TLV.unmarshalBinary =
      .ok ⟨8, 3, [10, 11, 12]⟩ :=
  tlv_roundtrip ⟨8, 3, [10, 11, 12]⟩ (by decide) (by decide) (by decide)

/-- C6: `Frame.MarshalBinary` fails with `ErrInvalidFrame` when `ChassisID`
is nil, when `PortID` is nil, or when the TTL truncated to whole seconds
exceeds 65535.  The result is the bare error value, so no output byte is
produced on these failures. -/
theorem frame_marshal_preconditions (f : Frame)
    (h : f.ChassisID = none ∨ f.PortID = none ∨
      maxUint16 < Int.tdiv f.TTL timeSecond) :
    f.marshalBinary = .error .invalidFrame := by
  obtain ⟨fc, fp, fT, fo⟩ := f
  rcases fc with _ | c
  · rfl
  rcases fp with _ | p
  · rfl
  have hT : maxUint16 < Int.tdiv fT timeSecond := by
    rcases h with h | h | h
    · exact Option.noConfusion h
    · exact Option.noConfusion h
    · exact h
  rw [frame_marshal_eq, if_pos hT]

/-- Witness for C6 at a frame with no chassis identifier. -/
theorem frame_marshal_preconditions_witness :
    (Frame.mk none none 0 []).marshalBinary = Except.error Err.invalidFrame :=
  frame_marshal_preconditions ⟨none, none, 0, []⟩ (Or.inl rfl)

/-- An error of `Frame.MarshalBinary` with both identifiers present is
either the TTL range failure or an `ErrInvalidTLV` propagated from a TLV
marshal. -/
lemma frame_marshal_error_classify {c : ChassisID} {p : PortID} {T : Int}
    {opt : List TLV} {e : Err}
    (h : Frame.marshalBinary ⟨some c, some p, T, opt⟩ = .error e) :
    (e = .invalidFrame ∧ maxUint16 < Int.tdiv T timeSecond) ∨ e = .invalidTLV := by
  rw [frame_marshal_eq] at h
  by_cases hT : maxUint16 < Int.tdiv T timeSecond
  · rw [if_pos hT] at h
    exact Or.inl ⟨(Except.error.inj h).symm, hT⟩
  rw [if_neg hT] at h
  refine Or.inr ?_
  cases hcb : (TLV.mk TLVTypeChassisID (c.marshalBinary.length % 65536)
      c.marshalBinary).marshalBinary with
  | error e2 =>
    rw [hcb] at h
    rw [← Except.error.inj h]
    exact tlv_marshal_error _ hcb
  | ok cbb =>
    rw [hcb] at h
    cases hpb : (TLV.mk TLVTypePortID (p.marshalBinary.length % 65536)
        p.marshalBinary).marshalBinary with
    | error e2 =>
      rw [hpb] at h
      rw [← Except.error.inj h]
      exact tlv_marshal_error _ hpb
    | ok pbb =>
      rw [hpb] at h
      cases htb : (TLV.mk TLVTypeTTL 2
          (putUint16BE (Int.toNat (Int.emod (Int.tdiv T timeSecond) 65536)))).marshalBinary with
      | error e2 =>
        rw [htb] at h
        rw [← Except.error.inj h]
        exact tlv_marshal_error _ htb
      | ok tbb =>
        rw [htb] at h
        cases hob : opt.mapM TLV.marshalBinary with
        | error e2 =>
          rw [hob] at h
          rw [← Except.error.inj h]
          exact tlv_mapM_error _ hob
        | ok obs =>
          rw [hob] at h
          exact Except.noConfusion h

/-- C9: `Frame.MarshalBinary` does not reject a negative TTL: when the TTL
truncated to whole seconds is negative the range check passes (the frame is
never rejected with `ErrInvalidFrame`), and on success the two bytes of the
TTL field are the big-endian low 16 bits of the negative seconds count. -/
theorem frame_marshal_negative_ttl (f : Frame) (c : ChassisID) (p : PortID)
    (hc : f.ChassisID = some c) (hp : f.PortID = some p)
    (hneg : Int.tdiv f.TTL timeSecond < 0) :
    f.marshalBinary ≠ .error .invalidFrame ∧
    (∀ bs, f.marshalBinary = .ok bs →
      (bs.drop (2 + (1 + c.ID.length) + (2 + (1 + p.ID.length)) + 2)).take 2 =
        putUint16BE (Int.toNat (Int.emod (Int.tdiv f.TTL timeSecond) 65536))) := by
  obtain ⟨fc, fp, fT, fo⟩ := f
  have hc2 : fc = some c := hc
  have hp2 : fp = some p := hp
  subst hc2
  subst hp2
  have hneg2 : Int.tdiv fT timeSecond < 0 := hneg
  constructor
  · intro hbad
    rcases frame_marshal_error_classify hbad with ⟨-, hT⟩ | hTLV
    · simp only [maxUint16] at hT
      omega
    · exact Err.noConfusion hTLV
  · intro bs hbs
    obtain ⟨-, cbb, pbb, tbb, obs, hcb, hpb, htb, hob, rfl⟩ := frame_marshal_parts hbs
    obtain ⟨-, -, hc3, hcshape⟩ := tlv_marshal_ok _ hcb
    obtain ⟨-, -, -, htshape⟩ := tlv_marshal_ok _ htb
    obtain ⟨-, -, hp3, hpshape⟩ := tlv_marshal_ok _ hpb
    have hclen : cbb.length = 2 + (1 + c.ID.length) := by
      rw [hcshape]
      simp [putUint16BE, ChassisID.marshalBinary]
      omega
    have hplen : pbb.length = 2 + (1 + p.ID.length) := by
      rw [hpshape]
      simp [putUint16BE, PortID.marshalBinary]
      omega
    have hsum : 2 + (1 + c.ID.length) + (2 + (1 + p.ID.length)) + 2 =
        cbb.length + (pbb.length + 2) := by omega
    rw [hsum]
    simp only [List.append_assoc]
    rw [← List.drop_drop, List.drop_left, ← List.drop_drop, List.drop_left, htshape]
    simp [putUint16BE]

/-- Witness for C9: a TTL of minus one second encodes as `0xFFFF`. -/
theorem frame_marshal_negative_ttl_witness :
    (Frame.mk (some ⟨0, []⟩) (some ⟨0, []⟩) (-1000000000) []).marshalBinary ≠
      Except.error Err.invalidFrame :=
  (frame_marshal_negative_ttl ⟨some ⟨0, []⟩, some ⟨0, []⟩, -1000000000, []⟩
    ⟨0, []⟩ ⟨0, []⟩ rfl rfl (by decide)).1

/-- The last element of a list obtained by appending a singleton. -/
lemma getD_concat_last {α : Type} (l : List α) (x d : α) :
    (l ++ [x]).getD ((l ++ [x]).length - 1) d = x := by
  have hlen : (l ++ [x]).length - 1 = l.length := by simp
  rw [hlen, List.getD_append_right l [x] d l.length le_rfl]
  simp

/-- C1: for every Frame with present chassis and port identifiers, a
whole-second TTL of at most 65535 seconds, and any optional TLV list,
decoding the bytes produced by a successful encode yields a Frame equal to
the original (same identifiers, TTL, and optional list in order). -/
theorem frame_roundtrip (f : Frame) (c : ChassisID) (p : PortID) (s : Nat) (bs : List Nat)
    (hc : f.ChassisID = some c) (hp : f.PortID = some p)
    (hs : s ≤ 65535) (httl : f.TTL = (s : Int) * timeSecond)
    (henc : f.marshalBinary = .ok bs) :
    Frame.unmarshalBinary ⟨none, none, 0, []⟩ bs = (f, none) := by
  obtain ⟨fc, fp, fT, fo⟩ := f
  have hc2 : fc = some c := hc
  have hp2 : fp = some p := hp
  have ht2 : fT = (s : Int) * timeSecond := httl
  subst hc2
  subst hp2
  subst ht2
  obtain ⟨hT, cbb, pbb, tbb, obs, hcb, hpb, htb, hob, rfl⟩ := frame_marshal_parts henc
  have hdiv : Int.tdiv ((s : Int) * timeSecond) timeSecond = (s : Int) :=
    Int.mul_tdiv_cancel _ (by norm_num [timeSecond])
  have hs0 : (0 : Int) ≤ (s : Int) := Int.ofNat_nonneg s
  have hs1 : (s : Int) < 65536 := by exact_mod_cast Nat.lt_succ_of_le hs
  have hsm : Int.toNat (Int.emod ((s : Int)) 65536) = s := by
    show ((s : Int) % 65536).toNat = s
    rw [Int.emod_eq_of_lt hs0 hs1, Int.toNat_ofNat]
  rw [hdiv, hsm] at htb
  have hparse0 : parseTLVs [0, 0] = .ok [⟨0, 0, []⟩] := by decide
  have hparse : parseTLVs (cbb ++ pbb ++ tbb ++ obs.flatten ++ [0, 0]) =
      .ok (TLV.mk TLVTypeChassisID (c.marshalBinary.length % 65536) c.marshalBinary ::
        TLV.mk TLVTypePortID (p.marshalBinary.length % 65536) p.marshalBinary ::
        TLV.mk TLVTypeTTL 2 (putUint16BE s) ::
        (fo ++ [⟨0, 0, []⟩])) := by
    simp only [List.append_assoc]
    rw [parseTLVs_seg _ hcb, parseTLVs_seg _ hpb, parseTLVs_seg _ htb,
      parseTLVs_flatten _ hob, hparse0]
    rfl
  set tt : List TLV :=
    TLV.mk TLVTypeChassisID (c.marshalBinary.length % 65536) c.marshalBinary ::
      TLV.mk TLVTypePortID (p.marshalBinary.length % 65536) p.marshalBinary ::
      TLV.mk TLVTypeTTL 2 (putUint16BE s) ::
      (fo ++ [⟨0, 0, []⟩]) with htt
  have hlen : ¬ (tt.length < 4) := by
    rw [htt]
    simp only [List.length_cons, List.length_append, List.length_nil]
    omega
  have hglast : tt.getD (tt.length - 1) ⟨0, 0, []⟩ = ⟨0, 0, []⟩ := by
    have hconc : tt = (TLV.mk TLVTypeChassisID (c.marshalBinary.length % 65536) c.marshalBinary ::
        TLV.mk TLVTypePortID (p.marshalBinary.length % 65536) p.marshalBinary ::
        TLV.mk TLVTypeTTL 2 (putUint16BE s) :: fo) ++ [⟨0, 0, []⟩] := by
      rw [htt]
      simp
    rw [hconc, getD_concat_last]
  have hok := frame_unmarshal_ok ⟨none, none, 0, []⟩
    (cbb ++ pbb ++ tbb ++ obs.flatten ++ [0, 0]) tt c p hparse hlen rfl rfl rfl rfl rfl rfl
    (by rw [hglast]; try rfl) (by rw [hglast]; try rfl)
  rw [hok]
  have hV : (tt.getD 2 ⟨0, 0, []⟩).Value = putUint16BE s := rfl
  have hu : uint16BE ((putUint16BE s).getD 0 0) ((putUint16BE s).getD 1 0) = s := by
    simp only [putUint16BE, List.getD_cons_zero, List.getD_cons_succ]
    unfold uint16BE
    rw [lor_shiftLeft8 _ _ (Nat.mod_lt _ (by norm_num)), Nat.shiftRight_eq_div_pow]
    norm_num
    omega
  have hdrop3 : (tt.drop 3).dropLast = fo := by
    rw [htt]
    show ((fo ++ [⟨0, 0, []⟩]) : List TLV).dropLast = fo
    exact List.dropLast_concat
  rw [hV, hu, hdrop3]
  rfl

/-- Witness for C1 at the frame of the package's own tests. -/
theorem frame_roundtrip_witness :
    Frame.unmarshalBinary ⟨none, none, 0, []⟩
      [2, 4, 1, 102, 111, 111, 4, 4, 1, 98, 97, 114, 6, 2, 0, 255, 0, 0] =
      (⟨some ⟨1, [102, 111, 111]⟩, some ⟨1, [98, 97, 114]⟩,
        (255 : Int) * timeSecond, []⟩, none) :=
  frame_roundtrip _ ⟨1, [102, 111, 111]⟩ ⟨1, [98, 97, 114]⟩ 255 _ rfl rfl
    (by decide) rfl (by decide)

/-- C4 counterexample: the bytes `[2,0, 2,0, 0,0, 0,0]` split into exactly
four TLV units whose unit 1 does not have the port ID kind, yet
`Frame.UnmarshalBinary` returns `io.ErrUnexpectedEOF` (from the chassis
identifier decode of the empty unit-0 value), not `ErrInvalidFrame` as the
claim requires. -/
theorem frame_positional_error_cex :
    parseTLVs [2, 0, 2, 0, 0, 0, 0, 0] =
      .ok [⟨1, 0, []⟩, ⟨1, 0, []⟩, ⟨0, 0, []⟩, ⟨0, 0, []⟩] ∧
    (([⟨1, 0, []⟩, ⟨1, 0, []⟩, ⟨0, 0, []⟩, ⟨0, 0, []⟩] : List TLV).getD 1
      ⟨0, 0, []⟩).type ≠ TLVTypePortID ∧
    (Frame.unmarshalBinary ⟨none, none, 0, []⟩ [2, 0, 2, 0, 0, 0, 0, 0]).2 ≠
      some Err.invalidFrame ∧
    (Frame.unmarshalBinary ⟨none, none, 0, []⟩ [2, 0, 2, 0, 0, 0, 0, 0]).2 =
      some Err.unexpectedEOF := by decide

/-- C4 (amended): when the input splits into fewer than 4 TLV units the
decode fails with `io.ErrUnexpectedEOF`; with 4 or more units the
positional checks fail with `ErrInvalidFrame` — unit 0 must have the
chassis ID kind, unit 1 the port ID kind, unit 2 the TTL kind with length
2, and the last unit kind 0 with length 0 — except that a chassis-ID or
port-ID unit in position with an empty value makes the identifier decode
fail first with `io.ErrUnexpectedEOF` before any later positional check
runs. -/
theorem frame_unmarshal_error_spec (f0 : Frame) (b : List Nat) (tt : List TLV)
    (hparse : parseTLVs b = .ok tt) :
    (tt.length < 4 → (Frame.unmarshalBinary f0 b).2 = some .unexpectedEOF) ∧
    (4 ≤ tt.length →
      ((tt.getD 0 ⟨0, 0, []⟩).type ≠ TLVTypeChassisID →
        (Frame.unmarshalBinary f0 b).2 = some .invalidFrame) ∧
      ((tt.getD 0 ⟨0, 0, []⟩).type = TLVTypeChassisID →
        (tt.getD 0 ⟨0, 0, []⟩).Value = [] →
        (Frame.unmarshalBinary f0 b).2 = some .unexpectedEOF) ∧
      ((tt.getD 0 ⟨0, 0, []⟩).type = TLVTypeChassisID →
        (tt.getD 0 ⟨0, 0, []⟩).Value ≠ [] →
        (tt.getD 1 ⟨0, 0, []⟩).type ≠ TLVTypePortID →
        (Frame.unmarshalBinary f0 b).2 = some .invalidFrame) ∧
      ((tt.getD 0 ⟨0, 0, []⟩).type = TLVTypeChassisID →
        (tt.getD 0 ⟨0, 0, []⟩).Value ≠ [] →
        (tt.getD 1 ⟨0, 0, []⟩).type = TLVTypePortID →
        (tt.getD 1 ⟨0, 0, []⟩).Value = [] →
        (Frame.unmarshalBinary f0 b).2 = some .unexpectedEOF) ∧
      ((tt.getD 0 ⟨0, 0, []⟩).type = TLVTypeChassisID →
        (tt.getD 0 ⟨0, 0, []⟩).Value ≠ [] →
        (tt.getD 1 ⟨0, 0, []⟩).type = TLVTypePortID →
        (tt.getD 1 ⟨0, 0, []⟩).Value ≠ [] →
        (tt.getD 2 ⟨0, 0, []⟩).type ≠ TLVTypeTTL ∨ (tt.getD 2 ⟨0, 0, []⟩).Length ≠ 2 →
        (Frame.unmarshalBinary f0 b).2 = some .invalidFrame) ∧
      ((tt.getD 0 ⟨0, 0, []⟩).type = TLVTypeChassisID →
        (tt.getD 0 ⟨0, 0, []⟩).Value ≠ [] →
        (tt.getD 1 ⟨0, 0, []⟩).type = TLVTypePortID →
        (tt.getD 1 ⟨0, 0, []⟩).Value ≠ [] →
        (tt.getD 2 ⟨0, 0, []⟩).type = TLVTypeTTL →
        (tt.getD 2 ⟨0, 0, []⟩).Length = 2 →
        (tt.getD (tt.length - 1) ⟨0, 0, []⟩).type ≠ TLVTypeEnd ∨
          (tt.getD (tt.length - 1) ⟨0, 0, []⟩).Length ≠ 0 →
        (Frame.unmarshalBinary f0 b).2 = some .invalidFrame)) := by
  refine ⟨?_, fun hge => ⟨?_, ?_, ?_, ?_, ?_, ?_⟩⟩
  · intro h
    rw [frame_unmarshal_short f0 b tt hparse h]
  · intro h0
    rw [frame_unmarshal_bad_chassis_type f0 b tt hparse (by omega) h0]
  · intro h0 h0v
    rw [frame_unmarshal_chassis_eof f0 b tt hparse (by omega) h0 h0v]
  · intro h0 h0v h1
    obtain ⟨v, vs, hv⟩ := List.exists_cons_of_ne_nil h0v
    have hcu : ChassisID.unmarshalBinary (tt.getD 0 ⟨0, 0, []⟩).Value = .ok ⟨v, vs⟩ := by
      rw [hv]
      rfl
    rw [frame_unmarshal_bad_port_type f0 b tt ⟨v, vs⟩ hparse (by omega) h0 hcu h1]
  · intro h0 h0v h1 h1v
    obtain ⟨v, vs, hv⟩ := List.exists_cons_of_ne_nil h0v
    have hcu : ChassisID.unmarshalBinary (tt.getD 0 ⟨0, 0, []⟩).Value = .ok ⟨v, vs⟩ := by
      rw [hv]
      rfl
    rw [frame_unmarshal_port_eof f0 b tt ⟨v, vs⟩ hparse (by omega) h0 hcu h1 h1v]
  · intro h0 h0v h1 h1v h2
    obtain ⟨v, vs, hv⟩ := List.exists_cons_of_ne_nil h0v
    have hcu : ChassisID.unmarshalBinary (tt.getD 0 ⟨0, 0, []⟩).Value = .ok ⟨v, vs⟩ := by
      rw [hv]
      rfl
    obtain ⟨w1, ws, hw⟩ := List.exists_cons_of_ne_nil h1v
    have hpu : PortID.unmarshalBinary (tt.getD 1 ⟨0, 0, []⟩).Value = .ok ⟨w1, ws⟩ := by
      rw [hw]
      rfl
    rw [frame_unmarshal_bad_ttl f0 b tt ⟨v, vs⟩ ⟨w1, ws⟩ hparse (by omega) h0 hcu h1 hpu h2]
  · intro h0 h0v h1 h1v h2a h2b h3
    obtain ⟨v, vs, hv⟩ := List.exists_cons_of_ne_nil h0v
    have hcu : ChassisID.unmarshalBinary (tt.getD 0 ⟨0, 0, []⟩).Value = .ok ⟨v, vs⟩ := by
      rw [hv]
      rfl
    obtain ⟨w1, ws, hw⟩ := List.exists_cons_of_ne_nil h1v
    have hpu : PortID.unmarshalBinary (tt.getD 1 ⟨0, 0, []⟩).Value = .ok ⟨w1, ws⟩ := by
      rw [hw]
      rfl
    rw [frame_unmarshal_bad_end f0 b tt ⟨v, vs⟩ ⟨w1, ws⟩ hparse (by omega) h0 hcu h1 hpu
      h2a h2b h3]

/-- Witness for the amended C4: a buffer that splits into a single TLV unit
is rejected with `io.ErrUnexpectedEOF`. -/
theorem frame_unmarshal_error_spec_witness :
    (Frame.unmarshalBinary ⟨none, none, 0, []⟩ [0, 0]).2 = some Err.unexpectedEOF :=
  (frame_unmarshal_error_spec ⟨none, none, 0, []⟩ [0, 0] [⟨0, 0, []⟩] (by decide)).1
    (by decide)

/-- C7 counterexample: the bytes `[2,1,0, 4,1,0, 6,2,0,0, 0,0, 0,0]` decode
successfully, and the resulting `Optional` list contains a TLV unit of the
terminator kind (a kind-0, length-0 unit that precedes the final
terminator). -/
theorem frame_optional_terminator_cex :
    (Frame.unmarshalBinary ⟨none, none, 0, []⟩
        [2, 1, 0, 4, 1, 0, 6, 2, 0, 0, 0, 0, 0, 0]).2 = none ∧
    ((Frame.unmarshalBinary ⟨none, none, 0, []⟩
        [2, 1, 0, 4, 1, 0, 6, 2, 0, 0, 0, 0, 0, 0]).1.Optional.any
      (fun u => u.type == TLVTypeEnd)) = true := by decide

/-- C7 (amended): on every successful decode, `Optional` is exactly the
parsed units strictly between index 2 and the last; the final unit is a
terminator (kind 0, length 0) and is consumed rather than retained, but
`Optional` may itself contain kind-0 units that appeared before the final
terminator. -/
theorem frame_optional_amended (f0 g : Frame) (b : List Nat) (tt : List TLV)
    (hparse : parseTLVs b = .ok tt)
    (h : Frame.unmarshalBinary f0 b = (g, none)) :
    g.Optional = (tt.drop 3).dropLast ∧
    (tt.getD (tt.length - 1) ⟨0, 0, []⟩).type = TLVTypeEnd ∧
    (tt.getD (tt.length - 1) ⟨0, 0, []⟩).Length = 0 := by
  by_cases hlen : tt.length < 4
  · rw [frame_unmarshal_short f0 b tt hparse hlen] at h
    have h2 := congrArg Prod.snd h
    simp at h2
  by_cases h0 : (tt.getD 0 ⟨0, 0, []⟩).type = TLVTypeChassisID
  case neg =>
    rw [frame_unmarshal_bad_chassis_type f0 b tt hparse hlen h0] at h
    have h2 := congrArg Prod.snd h
    simp at h2
  by_cases h0v : (tt.getD 0 ⟨0, 0, []⟩).Value = []
  · rw [frame_unmarshal_chassis_eof f0 b tt hparse hlen h0 h0v] at h
    have h2 := congrArg Prod.snd h
    simp at h2
  obtain ⟨v, vs, hv⟩ := List.exists_cons_of_ne_nil h0v
  have hcu : ChassisID.unmarshalBinary (tt.getD 0 ⟨0, 0, []⟩).Value = .ok ⟨v, vs⟩ := by
    rw [hv]
    rfl
  by_cases h1 : (tt.getD 1 ⟨0, 0, []⟩).type = TLVTypePortID
  case neg =>
    rw [frame_unmarshal_bad_port_type f0 b tt ⟨v, vs⟩ hparse hlen h0 hcu h1] at h
    have h2 := congrArg Prod.snd h
    simp at h2
  by_cases h1v : (tt.getD 1 ⟨0, 0, []⟩).Value = []
  · rw [frame_unmarshal_port_eof f0 b tt ⟨v, vs⟩ hparse hlen h0 hcu h1 h1v] at h
    have h2 := congrArg Prod.snd h
    simp at h2
  obtain ⟨w1, ws, hw⟩ := List.exists_cons_of_ne_nil h1v
  have hpu : PortID.unmarshalBinary (tt.getD 1 ⟨0, 0, []⟩).Value = .ok ⟨w1, ws⟩ := by
    rw [hw]
    rfl
  by_cases h2c : (tt.getD 2 ⟨0, 0, []⟩).type = TLVTypeTTL ∧ (tt.getD 2 ⟨0, 0, []⟩).Length = 2
  case neg =>
    rw [frame_unmarshal_bad_ttl f0 b tt ⟨v, vs⟩ ⟨w1, ws⟩ hparse hlen h0 hcu h1 hpu
      (not_and_or.mp h2c)] at h
    have h2 := congrArg Prod.snd h
    simp at h2
  obtain ⟨h2a, h2b⟩ := h2c
  by_cases h3c : (tt.getD (tt.length - 1) ⟨0, 0, []⟩).type = TLVTypeEnd ∧
      (tt.getD (tt.length - 1) ⟨0, 0, []⟩).Length = 0
  case neg =>
    rw [frame_unmarshal_bad_end f0 b tt ⟨v, vs⟩ ⟨w1, ws⟩ hparse hlen h0 hcu h1 hpu h2a h2b
      (not_and_or.mp h3c)] at h
    have h2 := congrArg Prod.snd h
    simp at h2
  obtain ⟨h3a, h3b⟩ := h3c
  rw [frame_unmarshal_ok f0 b tt ⟨v, vs⟩ ⟨w1, ws⟩ hparse hlen h0 hcu h1 hpu h2a h2b
    h3a h3b] at h
  have hg := congrArg Prod.fst h
  simp only [Prod.fst] at hg
  exact ⟨by rw [← hg], h3a, h3b⟩

/-- Witness for the amended C7 at a minimal successful decode. -/
theorem frame_optional_amended_witness :
    (Frame.mk (some ⟨0, []⟩) (some ⟨0, []⟩) 0 []).Optional =
      (([⟨1, 1, [0]⟩, ⟨2, 1, [0]⟩, ⟨3, 2, [0, 0]⟩, ⟨0, 0, []⟩] : List TLV).drop 3).dropLast ∧
    (([⟨1, 1, [0]⟩, ⟨2, 1, [0]⟩, ⟨3, 2, [0, 0]⟩, ⟨0, 0, []⟩] : List TLV).getD
      (([⟨1, 1, [0]⟩, ⟨2, 1, [0]⟩, ⟨3, 2, [0, 0]⟩, ⟨0, 0, []⟩] : List TLV).length - 1)
      ⟨0, 0, []⟩).type = TLVTypeEnd ∧
    (([⟨1, 1, [0]⟩, ⟨2, 1, [0]⟩, ⟨3, 2, [0, 0]⟩, ⟨0, 0, []⟩] : List TLV).getD
      (([⟨1, 1, [0]⟩, ⟨2, 1, [0]⟩, ⟨3, 2, [0, 0]⟩, ⟨0, 0, []⟩] : List TLV).length - 1)
      ⟨0, 0, []⟩).Length = 0 :=
  frame_optional_amended ⟨none, none, 0, []⟩ ⟨some ⟨0, []⟩, some ⟨0, []⟩, 0, []⟩
    [2, 1, 0, 4, 1, 0, 6, 2, 0, 0, 0, 0] [⟨1, 1, [0]⟩, ⟨2, 1, [0]⟩, ⟨3, 2, [0, 0]⟩, ⟨0, 0, []⟩]
    (by decide) (by decide)

/-- C10: `Frame.UnmarshalBinary` is not atomic on error: on the bytes
`[2,2,5,170, 2,0, 0,0, 0,0]` unit 0 is a valid chassis ID TLV but unit 1
does not have the port ID kind, and the returned receiver already carries
the decoded `ChassisID` alongside `ErrInvalidFrame`. -/
theorem frame_unmarshal_nonatomic :
    Frame.unmarshalBinary ⟨none, none, 0, []⟩ [2, 2, 5, 170, 2, 0, 0, 0, 0, 0] =
      (⟨some ⟨5, [170]⟩, none, 0, []⟩, some Err.invalidFrame) ∧
    (Frame.unmarshalBinary ⟨none, none, 0, []⟩ [2, 2, 5, 170, 2, 0, 0, 0, 0, 0]).1.ChassisID ≠
      (Frame.mk none none 0 []).ChassisID := by decide

end LLDP
